import Mathlib

/-!
Shallow embedding of the turtle swarm optimizer (`src/src/lib.rs`).

Modelling conventions:
* `f64` score values (objective results, best scores, the goal) are modelled
  by `F64`: exact rationals plus the special values `nan`, `negInf`, `posInf`.
  The comparison operators follow IEEE-754: every comparison involving `nan`
  is false.  Arithmetic on scores never occurs in the source, only comparison.
* position and velocity components are modelled as exact rationals (`ℚ`);
  the source only adds, subtracts, scales and compares them.
* `Array1<f64>` becomes `List ℚ`; elementwise ndarray arithmetic becomes
  `List.zipWith` (the source panics on shape mismatch; in every run all
  vectors share the boundary's `shape`).
* `Array::random(shape, Uniform::new(lower, upper))` is modelled by passing
  the sampled vector (the `draw`) explicitly; the distribution's support is
  `[lower, upper)`, so theorems about initial positions take the hypothesis
  that each drawn component lies in the boundary interval.
* the caller-owned `objective_function: &dyn Fn(&Array1<f64>) -> f64` is an
  explicit parameter `f : List ℚ → F64` of the methods that invoke it.
* the unbounded `while` loop of `optimize` is modelled with explicit fuel
  (`Optimizer.optimizeFuel`), returning `none` when the fuel runs out before
  the loop guard becomes false.
-/

/-- Idealized IEEE-754 double precision value: `nan`, the two infinities, and
finite values modelled as exact rationals. -/
inductive F64 where
  | nan : F64
  | negInf : F64
  | posInf : F64
  | val : ℚ → F64
  deriving DecidableEq

/-- IEEE-754 `<` on doubles: any comparison with `nan` is false,
`negInf` is below everything else, `posInf` above everything else. -/
def F64.lt : F64 → F64 → Bool
  | .nan, _ => false
  | _, .nan => false
  | .negInf, .negInf => false
  | .negInf, _ => true
  | _, .negInf => false
  | .posInf, _ => false
  | .val _, .posInf => true
  | .val a, .val b => decide (a < b)

/-- IEEE-754 `<=` on doubles: any comparison with `nan` is false. -/
def F64.le : F64 → F64 → Bool
  | .nan, _ => false
  | _, .nan => false
  | .negInf, _ => true
  | _, .negInf => false
  | .posInf, .posInf => true
  | .val _, .posInf => true
  | .posInf, .val _ => false
  | .val a, .val b => decide (a ≤ b)

/-- IEEE-754 `>` on doubles, as used by the loop guard
`self.best_score > self.goal`. -/
def F64.gt (a b : F64) : Bool := F64.lt b a

/-- The conditional-update pattern `if score < best { best = score }` computes
a minimum; `sMin a b` is that minimum (`a` when `a < b`, else `b`). -/
def sMin (a b : F64) : F64 := if F64.lt a b then a else b

/-- Constant `f64::EPSILON` = 2⁻⁵². -/
def EPSILON : ℚ := 1 / 2 ^ 52

/-- Constant `TURTLE_VELOCITY: f64 = EPSILON` (line 9 of the source). -/
def TURTLE_VELOCITY : ℚ := EPSILON

/-- Struct `CubicBoundary { lower, upper, shape }`. -/
structure CubicBoundary where
  lower : ℚ
  upper : ℚ
  shape : ℕ
  deriving DecidableEq

/-- Constructor `CubicBoundary::new` on the exact-rational bounds used by the
swarm dynamics.  This projection drops the special f64 values;
`CubicBoundaryF.new` below models the same constructor with full f64
comparison semantics (keeping `NaN` and the infinities) and agrees with this
one on finite bounds. -/
def CubicBoundary.new (shape : ℕ) (lower upper : ℚ) : CubicBoundary :=
  if lower > upper then
    { lower := upper, upper := lower, shape := shape }
  else
    { lower := lower, upper := upper, shape := shape }

/-- Struct `CubicBoundary` with its f64 bounds modelled as `F64`, keeping the
`NaN` and infinity inputs the source accepts. -/
structure CubicBoundaryF where
  lower : F64
  upper : F64
  shape : ℕ
  deriving DecidableEq

/-- Constructor `CubicBoundary::new` with f64 bounds: the source's
`if lower > upper` swap, where `>` is the IEEE comparison (false whenever
either bound is `NaN`). -/
def CubicBoundaryF.new (shape : ℕ) (lower upper : F64) : CubicBoundaryF :=
  if F64.gt lower upper then
    { lower := upper, upper := lower, shape := shape }
  else
    { lower := lower, upper := upper, shape := shape }

/-- Struct `Turtle { position, velocity, best_score, best_position }`. -/
structure Turtle where
  position : List ℚ
  velocity : List ℚ
  best_score : F64
  best_position : List ℚ
  deriving DecidableEq

/-- Constructor `Turtle::new(boundaries)`.  The random position draw
(`Array::random(shape, Uniform::new(lower, upper))`) is passed explicitly as
`draw`; `velocity` is `EPSILON * Array1::ones(shape)`, `best_score` is
`INFINITY`, `best_position` is `Array1::zeros(shape)`. -/
def Turtle.new (boundaries : CubicBoundary) (draw : List ℚ) : Turtle :=
  { position := draw
    velocity := List.replicate boundaries.shape EPSILON
    best_score := F64.posInf
    best_position := List.replicate boundaries.shape 0 }

/-- Struct `Optimizer` minus the caller-owned `objective_function` reference,
which is passed explicitly to the methods that call it. -/
structure Optimizer where
  turtles : List Turtle
  boundaries : CubicBoundary
  iterations : ℕ
  best_score : F64
  best_position : List ℚ
  goal : F64
  deriving DecidableEq

/-- Constructor `Optimizer::new(turtles, boundaries, objective_function, goal)`.
The swarm is `(0..turtles).map(|_| Turtle::new(&boundaries))`; the random
draws of the `turtles` constructions are passed as `draws` (so the swarm size
is `draws.length`). -/
def Optimizer.new (boundaries : CubicBoundary) (goal : F64)
    (draws : List (List ℚ)) : Optimizer :=
  { turtles := draws.map (Turtle.new boundaries)
    boundaries := boundaries
    iterations := 0
    best_score := F64.posInf
    best_position := List.replicate boundaries.shape 0
    goal := goal }

/-- The body of `Optimizer::evaluate`'s `for` loop, threading the mutable
`(best_score, best_position)` pair left to right through the turtle list and
returning the updated turtles together with the final pair. -/
def evaluateAux (f : List ℚ → F64) (gb : F64) (gp : List ℚ) :
    List Turtle → List Turtle × F64 × List ℚ
  | [] => ([], gb, gp)
  | t :: ts =>
    let score := f t.position
    if F64.lt score t.best_score then
      let t' : Turtle :=
        { t with best_score := score, best_position := t.position }
      if F64.lt score gb then
        let r := evaluateAux f score t.position ts
        (t' :: r.1, r.2)
      else
        let r := evaluateAux f gb gp ts
        (t' :: r.1, r.2)
    else
      let r := evaluateAux f gb gp ts
      (t :: r.1, r.2)

/-- Method `Optimizer::evaluate` (lines 95-107). -/
def Optimizer.evaluate (f : List ℚ → F64) (s : Optimizer) : Optimizer :=
  let r := evaluateAux f s.best_score s.best_position s.turtles
  { s with turtles := r.1, best_score := r.2.1, best_position := r.2.2 }

/-- One turtle's velocity update:
`velocity + TURTLE_VELOCITY * (best_position - position)
          + TURTLE_VELOCITY * (gbest_position - position)`. -/
def Turtle.updateVelocity (gbest_position : List ℚ) (t : Turtle) : Turtle :=
  { t with
    velocity :=
      List.zipWith (· + ·)
        (List.zipWith (· + ·) t.velocity
          ((List.zipWith (· - ·) t.best_position t.position).map
            (fun d => TURTLE_VELOCITY * d)))
        ((List.zipWith (· - ·) gbest_position t.position).map
          (fun d => TURTLE_VELOCITY * d)) }

/-- Method `Optimizer::update_velocities` (lines 109-117). -/
def Optimizer.update_velocities (s : Optimizer) : Optimizer :=
  { s with turtles := s.turtles.map (Turtle.updateVelocity s.best_position) }

/-- The per-dimension clamp of `Optimizer::update_positions`. -/
def clampDim (boundaries : CubicBoundary) (d : ℚ) : ℚ :=
  if d > boundaries.upper then boundaries.upper
  else if d < boundaries.lower then boundaries.lower
  else d

/-- One turtle's position update: `position + velocity`, then clamp each
dimension into the boundary. -/
def Turtle.updatePosition (boundaries : CubicBoundary) (t : Turtle) : Turtle :=
  { t with
    position :=
      (List.zipWith (· + ·) t.position t.velocity).map (clampDim boundaries) }

/-- Method `Optimizer::update_positions` (lines 119-130). -/
def Optimizer.update_positions (s : Optimizer) : Optimizer :=
  { s with turtles := s.turtles.map (Turtle.updatePosition s.boundaries) }

/-- One iteration of the `optimize` loop body:
evaluate, update velocities, update positions, `iterations += 1`. -/
def Optimizer.step (f : List ℚ → F64) (s : Optimizer) : Optimizer :=
  let s3 := ((s.evaluate f).update_velocities).update_positions
  { s3 with iterations := s3.iterations + 1 }

/-- Iterates the loop body `n` times, unconditionally. -/
def Optimizer.stepN (f : List ℚ → F64) : ℕ → Optimizer → Optimizer
  | 0, s => s
  | n + 1, s => Optimizer.stepN f n (s.step f)

/-- Method `Optimizer::optimize` (lines 134-143) with explicit fuel:
`while self.best_score > self.goal { ... }`.  Returns `some` of the final
state when the guard becomes false within `fuel` iterations, else `none`. -/
def Optimizer.optimizeFuel (f : List ℚ → F64) : ℕ → Optimizer → Option Optimizer
  | 0, s => if F64.gt s.best_score s.goal then none else some s
  | n + 1, s =>
    if F64.gt s.best_score s.goal then Optimizer.optimizeFuel f n (s.step f)
    else some s

/-- One turtle's personal-best update in the evaluate phase, in isolation. -/
def updT (f : List ℚ → F64) (t : Turtle) : Turtle :=
  if F64.lt (f t.position) t.best_score then
    { t with best_score := f t.position, best_position := t.position }
  else t

/-- Modelled from the spec (§9, open question): the variant evaluate loop
that compares every score to the global best unconditionally, instead of
nesting the global-best comparison inside the personal-best comparison. -/
def evaluateAuxU (f : List ℚ → F64) (gb : F64) (gp : List ℚ) :
    List Turtle → List Turtle × F64 × List ℚ
  | [] => ([], gb, gp)
  | t :: ts =>
    let score := f t.position
    let t' := updT f t
    if F64.lt score gb then
      let r := evaluateAuxU f score t.position ts
      (t' :: r.1, r.2)
    else
      let r := evaluateAuxU f gb gp ts
      (t' :: r.1, r.2)

/-- Modelled from the spec (§9, open question): `evaluate` with the
unconditional global-best comparison. -/
def Optimizer.evaluateU (f : List ℚ → F64) (s : Optimizer) : Optimizer :=
  let r := evaluateAuxU f s.best_score s.best_position s.turtles
  { s with turtles := r.1, best_score := r.2.1, best_position := r.2.2 }

/-- The minimum (in the sense of the `score < best` update pattern) of the
swarm's personal best scores, starting from `INFINITY`. -/
def minScores (ts : List Turtle) : F64 :=
  List.foldr (fun t acc => sMin t.best_score acc) F64.posInf ts

/-- A concrete one-turtle state used by several witnesses. -/
def wState : Optimizer :=
  { turtles := [{ position := [1/2], velocity := [0],
                  best_score := F64.posInf, best_position := [0] }]
    boundaries := { lower := 0, upper := 1, shape := 1 }
    iterations := 0
    best_score := F64.posInf
    best_position := [0]
    goal := F64.val 0 }

/-- The turtle of `wState`. -/
def wTurtle : Turtle :=
  { position := [1/2], velocity := [0],
    best_score := F64.posInf, best_position := [0] }

/-- The optimizer produced by `Optimizer::new(0, CubicBoundary::new(1, 0., 1.),
f, f64::NAN)`: an empty swarm with a `NaN` goal. -/
def nanGoalState : Optimizer :=
  Optimizer.new (CubicBoundary.new 1 0 1) F64.nan []

/-- A state whose best score already meets its goal: `optimize` returns at
once from it. -/
def wDoneState : Optimizer :=
  { turtles := []
    boundaries := { lower := 0, upper := 1, shape := 1 }
    iterations := 0
    best_score := F64.val 0
    best_position := [0]
    goal := F64.val 1 }

/-! ### Order lemmas for the idealized doubles -/

theorem F64.lt_neq_nan_left {a b : F64} (h : F64.lt a b = true) : a ≠ F64.nan := by
  cases a <;> cases b <;> simp_all [F64.lt]

theorem F64.lt_neq_nan_right {a b : F64} (h : F64.lt a b = true) : b ≠ F64.nan := by
  cases a <;> cases b <;> simp_all [F64.lt]

theorem F64.le_neq_nan_left {a b : F64} (h : F64.le a b = true) : a ≠ F64.nan := by
  cases a <;> cases b <;> simp_all [F64.le]

theorem F64.le_neq_nan_right {a b : F64} (h : F64.le a b = true) : b ≠ F64.nan := by
  cases a <;> cases b <;> simp_all [F64.le]

theorem F64.le_refl {a : F64} (h : a ≠ F64.nan) : F64.le a a = true := by
  cases a <;> simp_all [F64.le]

theorem F64.lt_then_le {a b : F64} (h : F64.lt a b = true) : F64.le a b = true := by
  cases a <;> cases b <;> simp_all [F64.lt, F64.le] <;> linarith

theorem F64.lt_trans {a b c : F64} (h1 : F64.lt a b = true)
    (h2 : F64.lt b c = true) : F64.lt a c = true := by
  cases a <;> cases b <;> cases c <;> simp_all [F64.lt] <;> linarith

theorem F64.lt_le_trans {a b c : F64} (h1 : F64.lt a b = true)
    (h2 : F64.le b c = true) : F64.lt a c = true := by
  cases a <;> cases b <;> cases c <;> simp_all [F64.lt, F64.le] <;> linarith

theorem F64.le_lt_trans {a b c : F64} (h1 : F64.le a b = true)
    (h2 : F64.lt b c = true) : F64.lt a c = true := by
  cases a <;> cases b <;> cases c <;> simp_all [F64.lt, F64.le] <;> linarith

theorem F64.le_trans {a b c : F64} (h1 : F64.le a b = true)
    (h2 : F64.le b c = true) : F64.le a c = true := by
  cases a <;> cases b <;> cases c <;> simp_all [F64.le] <;> linarith

theorem F64.not_lt_then_le {a b : F64} (ha : a ≠ F64.nan) (hb : b ≠ F64.nan)
    (h : F64.lt a b = false) : F64.le b a = true := by
  cases a <;> cases b <;> simp_all [F64.lt, F64.le] <;> linarith

theorem sMin_neq_nan {a b : F64} (hb : b ≠ F64.nan) : sMin a b ≠ F64.nan := by
  unfold sMin
  split
  · exact F64.lt_neq_nan_left (by assumption)
  · exact hb

theorem sMin_le_right {a b : F64} (hb : b ≠ F64.nan) :
    F64.le (sMin a b) b = true := by
  unfold sMin
  split
  · exact F64.lt_then_le (by assumption)
  · exact F64.le_refl hb

theorem sMin_le_left {a b : F64} (ha : a ≠ F64.nan) (hb : b ≠ F64.nan) :
    F64.le (sMin a b) a = true := by
  unfold sMin
  split
  · exact F64.le_refl ha
  · exact F64.not_lt_then_le ha hb (Bool.eq_false_iff.mpr (by assumption))

theorem sMin_left_comm (a b c : F64) : sMin a (sMin b c) = sMin b (sMin a c) := by
  cases a <;> cases b <;> cases c <;>
    simp only [sMin, F64.lt] <;> split_ifs <;>
    first
      | rfl
      | (exact absurd rfl (by assumption))
      | contradiction
      | (exact absurd trivial (by assumption))
      | (simp_all; try linarith)

theorem sMin_assoc {a b c : F64} (hb : b ≠ F64.nan) :
    sMin a (sMin b c) = sMin (sMin a b) c := by
  cases a <;> cases b <;> cases c <;>
    simp only [sMin, F64.lt] <;> split_ifs <;>
    first
      | rfl
      | (exact absurd rfl (by assumption))
      | (exact absurd rfl hb)
      | contradiction
      | (exact absurd trivial (by assumption))
      | (simp_all; try linarith)

/-! ### C7: boundary normalization -/

/-- Counterexample to C7 as stated: `CubicBoundary::new(1, f64::NAN, 0.0)`
takes the else branch (`NAN > 0.0` is false under IEEE comparison) and stores
`lower = NaN, upper = 0.0` unswapped — and `NaN <= 0.0` is false, so
`lower <= upper` does not hold post-construction for every constructed
Boundary. -/
theorem claim_C7_counterexample :
    CubicBoundaryF.new 1 F64.nan (F64.val 0) =
      { lower := F64.nan, upper := F64.val 0, shape := 1 } ∧
    F64.le (CubicBoundaryF.new 1 F64.nan (F64.val 0)).lower
      (CubicBoundaryF.new 1 F64.nan (F64.val 0)).upper = false :=
  ⟨rfl, rfl⟩

/-- Claim C7 (amended): construction swaps the two values exactly when
`lower > upper` in the IEEE sense (never rejects them), and stores them
unchanged otherwise — in particular whenever either bound is `NaN`, since
then the comparison is false.  Hence `lower <= upper` holds post-construction
whenever neither input is `NaN`.  On finite (rational) bounds the constructor
agrees with the exact-rational model used for the swarm dynamics. -/
theorem claim_C7_boundary_normalization (shape : ℕ) (lower upper : F64) :
    (F64.gt lower upper = true →
      CubicBoundaryF.new shape lower upper =
        { lower := upper, upper := lower, shape := shape }) ∧
    (F64.gt lower upper = false →
      CubicBoundaryF.new shape lower upper =
        { lower := lower, upper := upper, shape := shape }) ∧
    (lower ≠ F64.nan → upper ≠ F64.nan →
      F64.le (CubicBoundaryF.new shape lower upper).lower
        (CubicBoundaryF.new shape lower upper).upper = true) ∧
    (∀ a b : ℚ, CubicBoundaryF.new shape (F64.val a) (F64.val b) =
      { lower := F64.val (CubicBoundary.new shape a b).lower,
        upper := F64.val (CubicBoundary.new shape a b).upper,
        shape := shape }) := by
  refine ⟨?_, ?_, ?_, ?_⟩
  · intro h
    unfold CubicBoundaryF.new
    rw [if_pos h]
  · intro h
    unfold CubicBoundaryF.new
    rw [if_neg (by simp [h])]
  · intro h1 h2
    unfold CubicBoundaryF.new
    by_cases h : F64.gt lower upper = true
    · rw [if_pos h]
      exact F64.lt_then_le h
    · rw [if_neg h]
      exact F64.not_lt_then_le h2 h1 (Bool.eq_false_iff.mpr h)
  · intro a b
    unfold CubicBoundaryF.new CubicBoundary.new
    by_cases hab : b < a
    · rw [if_pos (show F64.gt (F64.val a) (F64.val b) = true by
        simp [F64.gt, F64.lt, hab]), if_pos hab]
    · rw [if_neg (show ¬F64.gt (F64.val a) (F64.val b) = true by
        simp [F64.gt, F64.lt, hab]), if_neg hab]

theorem claim_C7_witness :
    CubicBoundaryF.new 2 (F64.val 3) (F64.val 1) =
      { lower := F64.val 1, upper := F64.val 3, shape := 2 } ∧
    CubicBoundaryF.new 2 (F64.val 0) (F64.val 1) =
      { lower := F64.val 0, upper := F64.val 1, shape := 2 } ∧
    F64.le (CubicBoundaryF.new 2 (F64.val 3) (F64.val 1)).lower
      (CubicBoundaryF.new 2 (F64.val 3) (F64.val 1)).upper = true :=
  ⟨(claim_C7_boundary_normalization 2 (F64.val 3) (F64.val 1)).1 (by decide),
   (claim_C7_boundary_normalization 2 (F64.val 0) (F64.val 1)).2.1 (by decide),
   (claim_C7_boundary_normalization 2 (F64.val 3) (F64.val 1)).2.2.1
     (by decide) (by decide)⟩

/-! ### C8: state immediately after construction -/

/-- Claim C8: immediately after `Optimizer::new` (before the first evaluate phase):
every agent's position is its uniform draw from the boundary interval, its
velocity is the constant `TURTLE_VELOCITY` vector, its personal best score is
positive infinity and its personal best position the zero vector; the global
best score is positive infinity and the global best position the zero vector. -/
theorem claim_C8_initial_state (boundaries : CubicBoundary) (goal : F64)
    (draws : List (List ℚ))
    (hdraw : ∀ d ∈ draws, ∀ x ∈ d,
      boundaries.lower ≤ x ∧ x ≤ boundaries.upper) :
    (∀ t ∈ (Optimizer.new boundaries goal draws).turtles,
      (∀ x ∈ t.position, boundaries.lower ≤ x ∧ x ≤ boundaries.upper) ∧
      t.velocity = List.replicate boundaries.shape TURTLE_VELOCITY ∧
      t.best_score = F64.posInf ∧
      t.best_position = List.replicate boundaries.shape 0) ∧
    (Optimizer.new boundaries goal draws).best_score = F64.posInf ∧
    (Optimizer.new boundaries goal draws).best_position =
      List.replicate boundaries.shape 0 ∧
    (Optimizer.new boundaries goal draws).iterations = 0 := by
  refine ⟨?_, rfl, rfl, rfl⟩
  intro t ht
  simp only [Optimizer.new, List.mem_map] at ht
  obtain ⟨d, hd, rfl⟩ := ht
  exact ⟨fun x hx => hdraw d hd x hx, rfl, rfl, rfl⟩

theorem claim_C8_witness :
    (∀ t ∈ (Optimizer.new (CubicBoundary.new 1 0 1) (F64.val 0)
        [[1/2]]).turtles,
      (∀ x ∈ t.position,
        (CubicBoundary.new 1 0 1).lower ≤ x ∧
          x ≤ (CubicBoundary.new 1 0 1).upper) ∧
      t.velocity = List.replicate (CubicBoundary.new 1 0 1).shape
        TURTLE_VELOCITY ∧
      t.best_score = F64.posInf ∧
      t.best_position = List.replicate (CubicBoundary.new 1 0 1).shape 0) ∧
    (Optimizer.new (CubicBoundary.new 1 0 1) (F64.val 0)
        [[1/2]]).best_score = F64.posInf ∧
    (Optimizer.new (CubicBoundary.new 1 0 1) (F64.val 0)
        [[1/2]]).best_position =
      List.replicate (CubicBoundary.new 1 0 1).shape 0 ∧
    (Optimizer.new (CubicBoundary.new 1 0 1) (F64.val 0)
        [[1/2]]).iterations = 0 :=
  claim_C8_initial_state (CubicBoundary.new 1 0 1) (F64.val 0) [[1/2]]
    (by intro d hd x hx; simp [CubicBoundary.new] at *; subst hd; simp_all; norm_num)

/-! ### C4: the velocity-update phase -/

/-- Claim C4: one update-velocities phase sets, componentwise,
`velocity_new = velocity_old + C * (personal_best_position - position)
+ C * (global_best_position - position)` with `C = TURTLE_VELOCITY`, the same
constant a new turtle's velocity vector is filled with; the phase changes no
positions, best scores, best positions, nor the global best pair. -/
theorem claim_C4_velocity_update (s : Optimizer) (t : Turtle)
    (ht : t ∈ s.turtles) (j : ℕ) (hj1 : j < t.velocity.length)
    (hj2 : j < t.position.length) (hj3 : j < t.best_position.length)
    (hj4 : j < s.best_position.length) :
    Turtle.updateVelocity s.best_position t ∈ (s.update_velocities).turtles ∧
    (Turtle.updateVelocity s.best_position t).velocity[j]? =
      some (t.velocity[j]
        + TURTLE_VELOCITY * (t.best_position[j] - t.position[j])
        + TURTLE_VELOCITY * (s.best_position[j] - t.position[j])) ∧
    (Turtle.updateVelocity s.best_position t).position = t.position ∧
    (Turtle.updateVelocity s.best_position t).best_score = t.best_score ∧
    (Turtle.updateVelocity s.best_position t).best_position =
      t.best_position ∧
    (s.update_velocities).best_score = s.best_score ∧
    (s.update_velocities).best_position = s.best_position ∧
    (∀ b draw, (Turtle.new b draw).velocity =
      List.replicate b.shape TURTLE_VELOCITY) := by
  refine ⟨List.mem_map_of_mem _ ht, ?_, rfl, rfl, rfl, rfl, rfl,
    fun b draw => rfl⟩
  have hlen : j < ((Turtle.updateVelocity s.best_position t).velocity).length := by
    simp [Turtle.updateVelocity]
    omega
  rw [List.getElem?_eq_getElem hlen]
  simp [Turtle.updateVelocity, List.getElem_zipWith, List.getElem_map]

theorem claim_C4_witness :
    Turtle.updateVelocity wState.best_position wTurtle ∈
      (wState.update_velocities).turtles ∧
    (Turtle.updateVelocity wState.best_position wTurtle).velocity[0]? =
      some (wTurtle.velocity[0]
        + TURTLE_VELOCITY *
            (wTurtle.best_position[0] - wTurtle.position[0])
        + TURTLE_VELOCITY *
            (wState.best_position[0] - wTurtle.position[0])) ∧
    (Turtle.updateVelocity wState.best_position wTurtle).position =
      wTurtle.position ∧
    (Turtle.updateVelocity wState.best_position wTurtle).best_score =
      wTurtle.best_score ∧
    (Turtle.updateVelocity wState.best_position wTurtle).best_position =
      wTurtle.best_position ∧
    (wState.update_velocities).best_score = wState.best_score ∧
    (wState.update_velocities).best_position = wState.best_position ∧
    (∀ b draw, (Turtle.new b draw).velocity =
      List.replicate b.shape TURTLE_VELOCITY) :=
  claim_C4_velocity_update wState wTurtle (by simp [wState, wTurtle])
    0 (by simp [wTurtle]) (by simp [wTurtle]) (by simp [wTurtle])
    (by simp [wState])

/-! ### C5: the position-update phase -/

/-- Claim C5: one update-positions phase sets, componentwise,
`position_new = position_old + velocity_new` and then clamps each dimension
independently (any component above `upper` becomes `upper`, any component
below `lower` becomes `lower`), after the full additive update; the turtle's
velocity, best score and best position are left unchanged. -/
theorem claim_C5_position_update (s : Optimizer) (t : Turtle)
    (ht : t ∈ s.turtles) (j : ℕ) (hj1 : j < t.position.length)
    (hj2 : j < t.velocity.length) :
    Turtle.updatePosition s.boundaries t ∈ (s.update_positions).turtles ∧
    (Turtle.updatePosition s.boundaries t).position[j]? =
      some (if t.position[j] + t.velocity[j] > s.boundaries.upper then
              s.boundaries.upper
            else if t.position[j] + t.velocity[j] < s.boundaries.lower then
              s.boundaries.lower
            else t.position[j] + t.velocity[j]) ∧
    (Turtle.updatePosition s.boundaries t).velocity = t.velocity ∧
    (Turtle.updatePosition s.boundaries t).best_score = t.best_score ∧
    (Turtle.updatePosition s.boundaries t).best_position = t.best_position := by
  refine ⟨List.mem_map_of_mem _ ht, ?_, rfl, rfl, rfl⟩
  have hlen : j < ((Turtle.updatePosition s.boundaries t).position).length := by
    simp [Turtle.updatePosition]
    omega
  rw [List.getElem?_eq_getElem hlen]
  simp [Turtle.updatePosition, List.getElem_zipWith, List.getElem_map, clampDim]

theorem claim_C5_witness :
    Turtle.updatePosition wState.boundaries wTurtle ∈
      (wState.update_positions).turtles ∧
    (Turtle.updatePosition wState.boundaries wTurtle).position[0]? =
      some (if wTurtle.position[0] + wTurtle.velocity[0] >
              wState.boundaries.upper then wState.boundaries.upper
            else if wTurtle.position[0] + wTurtle.velocity[0] <
              wState.boundaries.lower then wState.boundaries.lower
            else wTurtle.position[0] + wTurtle.velocity[0]) ∧
    (Turtle.updatePosition wState.boundaries wTurtle).velocity =
      wTurtle.velocity ∧
    (Turtle.updatePosition wState.boundaries wTurtle).best_score =
      wTurtle.best_score ∧
    (Turtle.updatePosition wState.boundaries wTurtle).best_position =
      wTurtle.best_position :=
  claim_C5_position_update wState wTurtle (by simp [wState, wTurtle])
    0 (by simp [wTurtle]) (by simp [wTurtle])

/-! ### C2: the clamp invariant -/

theorem clampDim_mem (b : CubicBoundary) (h : b.lower ≤ b.upper) (x : ℚ) :
    b.lower ≤ clampDim b x ∧ clampDim b x ≤ b.upper := by
  unfold clampDim
  split_ifs <;> constructor <;> linarith

theorem step_boundaries (f : List ℚ → F64) (s : Optimizer) :
    (s.step f).boundaries = s.boundaries := rfl

theorem step_turtles (f : List ℚ → F64) (s : Optimizer) :
    (s.step f).turtles =
      (((s.evaluate f).update_velocities).update_positions).turtles := rfl

/-- Claim C2: for a boundary with `lower <= upper` and a swarm whose positions start
inside the boundary interval, every component of every agent's position stays
in `[lower, upper]` after any number of iterations of the `optimize` loop. -/
theorem claim_C2_clamp_invariant (f : List ℚ → F64) (n : ℕ) (s : Optimizer)
    (hb : s.boundaries.lower ≤ s.boundaries.upper)
    (hpos : ∀ t ∈ s.turtles, ∀ x ∈ t.position,
      s.boundaries.lower ≤ x ∧ x ≤ s.boundaries.upper) :
    ∀ t ∈ (Optimizer.stepN f n s).turtles, ∀ x ∈ t.position,
      s.boundaries.lower ≤ x ∧ x ≤ s.boundaries.upper := by
  induction n generalizing s with
  | zero => exact hpos
  | succ n ih =>
    have hstep : ∀ t ∈ (s.step f).turtles, ∀ x ∈ t.position,
        s.boundaries.lower ≤ x ∧ x ≤ s.boundaries.upper := by
      intro t ht x hx
      rw [step_turtles] at ht
      simp only [Optimizer.update_positions, List.mem_map] at ht
      obtain ⟨t2, _, rfl⟩ := ht
      simp only [Turtle.updatePosition, List.mem_map] at hx
      obtain ⟨y, _, rfl⟩ := hx
      exact clampDim_mem s.boundaries hb y
    exact ih (s.step f) hb hstep

theorem claim_C2_witness :
    wState.boundaries.lower ≤ wState.boundaries.upper ∧
    (∀ t ∈ (Optimizer.stepN (fun _ => F64.val 0) 2 wState).turtles,
      ∀ x ∈ t.position,
        wState.boundaries.lower ≤ x ∧ x ≤ wState.boundaries.upper) :=
  ⟨by norm_num [wState],
   claim_C2_clamp_invariant (fun _ => F64.val 0) 2 wState
    (by norm_num [wState])
    (by intro t ht x hx; simp [wState] at ht; subst ht;
        simp [wTurtle] at hx; subst hx; norm_num [wState])⟩

/-! ### Structure of the evaluate phase -/

theorem evaluateAux_cons (f : List ℚ → F64) (gb : F64) (gp : List ℚ)
    (t : Turtle) (ts : List Turtle) :
    evaluateAux f gb gp (t :: ts) =
      if F64.lt (f t.position) t.best_score then
        if F64.lt (f t.position) gb then
          ({ t with best_score := f t.position, best_position := t.position } ::
              (evaluateAux f (f t.position) t.position ts).1,
            (evaluateAux f (f t.position) t.position ts).2)
        else
          ({ t with best_score := f t.position, best_position := t.position } ::
              (evaluateAux f gb gp ts).1,
            (evaluateAux f gb gp ts).2)
      else
        (t :: (evaluateAux f gb gp ts).1, (evaluateAux f gb gp ts).2) := by
  simp only [evaluateAux]

theorem evaluateAuxU_cons (f : List ℚ → F64) (gb : F64) (gp : List ℚ)
    (t : Turtle) (ts : List Turtle) :
    evaluateAuxU f gb gp (t :: ts) =
      if F64.lt (f t.position) gb then
        (updT f t :: (evaluateAuxU f (f t.position) t.position ts).1,
          (evaluateAuxU f (f t.position) t.position ts).2)
      else
        (updT f t :: (evaluateAuxU f gb gp ts).1,
          (evaluateAuxU f gb gp ts).2) := by
  simp only [evaluateAuxU]

theorem forall2_mem_left {α β : Type} {R : α → β → Prop} {l1 : List α}
    {l2 : List β} (h : List.Forall₂ R l1 l2) :
    ∀ a ∈ l1, ∃ b ∈ l2, R a b := by
  induction h with
  | nil => simp
  | cons hab _ ih =>
    intro a ha
    rcases List.mem_cons.mp ha with rfl | ha2
    · exact ⟨_, List.mem_cons_self _ _, hab⟩
    · obtain ⟨b, hb, hR⟩ := ih a ha2
      exact ⟨b, List.mem_cons_of_mem _ hb, hR⟩

theorem forall2_map {α β γ : Type} {R : α → β → Prop} {S : γ → γ → Prop}
    {l1 : List α} {l2 : List β} (g1 : α → γ) (g2 : β → γ)
    (h : List.Forall₂ R l1 l2)
    (himp : ∀ a b, b ∈ l2 → R a b → S (g1 a) (g2 b)) :
    List.Forall₂ S (l1.map g1) (l2.map g2) := by
  induction h with
  | nil => simp
  | cons hab hrest ih =>
    simp only [List.map_cons]
    exact List.Forall₂.cons (himp _ _ (List.mem_cons_self _ _) hab)
      (ih fun a b hb hr => himp a b (List.mem_cons_of_mem _ hb) hr)

/-- The global best pair after one pass of the evaluate loop: either it is
untouched, or it was last overwritten by some turtle's score, and then the
stored position is a copy of that turtle's position. -/
theorem evaluateAux_gb_cases (f : List ℚ → F64) (gb : F64) (gp : List ℚ)
    (ts : List Turtle) :
    ((evaluateAux f gb gp ts).2.1 = gb ∧ (evaluateAux f gb gp ts).2.2 = gp) ∨
    (F64.lt (evaluateAux f gb gp ts).2.1 gb = true ∧
      ∃ t ∈ ts, (evaluateAux f gb gp ts).2.1 = f t.position ∧
        (evaluateAux f gb gp ts).2.2 = t.position) := by
  induction ts generalizing gb gp with
  | nil => exact Or.inl ⟨rfl, rfl⟩
  | cons t ts ih =>
    rw [evaluateAux_cons]
    split_ifs with h1 h2
    · rcases ih (f t.position) t.position with ⟨h3, h4⟩ | ⟨h3, t2, ht2, h4, h5⟩
      · exact Or.inr ⟨by rw [h3]; exact h2,
          t, List.mem_cons_self _ _, h3, h4⟩
      · exact Or.inr ⟨F64.lt_trans h3 h2,
          t2, List.mem_cons_of_mem _ ht2, h4, h5⟩
    · rcases ih gb gp with ⟨h3, h4⟩ | ⟨h3, t2, ht2, h4, h5⟩
      · exact Or.inl ⟨h3, h4⟩
      · exact Or.inr ⟨h3, t2, List.mem_cons_of_mem _ ht2, h4, h5⟩
    · rcases ih gb gp with ⟨h3, h4⟩ | ⟨h3, t2, ht2, h4, h5⟩
      · exact Or.inl ⟨h3, h4⟩
      · exact Or.inr ⟨h3, t2, List.mem_cons_of_mem _ ht2, h4, h5⟩

/-- Per-turtle effect of one pass of the evaluate loop: each turtle keeps its
position and velocity; its personal best score is either kept, or overwritten
by the turtle's own (strictly smaller) score, and then the personal best
position becomes a copy of the turtle's position. -/
theorem evaluateAux_pbests (f : List ℚ → F64) (gb : F64) (gp : List ℚ)
    (ts : List Turtle) :
    List.Forall₂ (fun t' t =>
      ((t'.best_score = t.best_score ∧ t'.best_position = t.best_position) ∨
        (t'.best_score = f t.position ∧ t'.best_position = t.position ∧
          F64.lt t'.best_score t.best_score = true)) ∧
      t'.position = t.position ∧ t'.velocity = t.velocity)
      (evaluateAux f gb gp ts).1 ts := by
  induction ts generalizing gb gp with
  | nil => exact List.Forall₂.nil
  | cons t ts ih =>
    rw [evaluateAux_cons]
    split_ifs with h1 h2
    · exact List.Forall₂.cons ⟨Or.inr ⟨rfl, rfl, h1⟩, rfl, rfl⟩
        (ih (f t.position) t.position)
    · exact List.Forall₂.cons ⟨Or.inr ⟨rfl, rfl, h1⟩, rfl, rfl⟩ (ih gb gp)
    · exact List.Forall₂.cons ⟨Or.inl ⟨rfl, rfl⟩, rfl, rfl⟩ (ih gb gp)

/-! ### C3: monotonicity of the best scores -/

theorem step_best_score (f : List ℚ → F64) (s : Optimizer) :
    (s.step f).best_score =
      (evaluateAux f s.best_score s.best_position s.turtles).2.1 := rfl

theorem step_pbest_list (f : List ℚ → F64) (s : Optimizer) :
    (s.step f).turtles.map (fun t => t.best_score) =
      ((evaluateAux f s.best_score s.best_position s.turtles).1).map
        (fun t => t.best_score) := by
  rw [step_turtles]
  simp only [Optimizer.update_positions, Optimizer.update_velocities,
    List.map_map]
  rfl

theorem stepN_succ (f : List ℚ → F64) (n : ℕ) (s : Optimizer) :
    Optimizer.stepN f (n + 1) s = (Optimizer.stepN f n s).step f := by
  induction n generalizing s with
  | zero => rfl
  | succ n ih => exact ih (s.step f)

/-- One loop iteration never produces a `NaN` best score, globally or for
any turtle, from a state without `NaN` best scores. -/
theorem step_nonNan (f : List ℚ → F64) (s : Optimizer)
    (hg : s.best_score ≠ F64.nan)
    (hp : ∀ t ∈ s.turtles, t.best_score ≠ F64.nan) :
    (s.step f).best_score ≠ F64.nan ∧
    ∀ t ∈ (s.step f).turtles, t.best_score ≠ F64.nan := by
  constructor
  · rw [step_best_score]
    rcases evaluateAux_gb_cases f s.best_score s.best_position s.turtles with
      ⟨h1, _⟩ | ⟨h1, _⟩
    · rw [h1]; exact hg
    · exact F64.lt_neq_nan_left h1
  · intro t ht
    have hmem : t.best_score ∈ (s.step f).turtles.map (fun t => t.best_score) :=
      List.mem_map_of_mem _ ht
    rw [step_pbest_list] at hmem
    obtain ⟨t2, ht2, hbs⟩ := List.mem_map.mp hmem
    obtain ⟨t3, ht3, hrel⟩ :=
      forall2_mem_left (evaluateAux_pbests f s.best_score s.best_position
        s.turtles) t2 ht2
    rw [← hbs]
    rcases hrel.1 with ⟨heq, _⟩ | ⟨_, _, hlt⟩
    · rw [heq]; exact hp t3 ht3
    · exact F64.lt_neq_nan_left hlt

theorem stepN_nonNan (f : List ℚ → F64) (n : ℕ) (s : Optimizer)
    (hg : s.best_score ≠ F64.nan)
    (hp : ∀ t ∈ s.turtles, t.best_score ≠ F64.nan) :
    (Optimizer.stepN f n s).best_score ≠ F64.nan ∧
    ∀ t ∈ (Optimizer.stepN f n s).turtles, t.best_score ≠ F64.nan := by
  induction n generalizing s with
  | zero => exact ⟨hg, hp⟩
  | succ n ih =>
    obtain ⟨hg2, hp2⟩ := step_nonNan f s hg hp
    exact ih (s.step f) hg2 hp2

/-- One loop iteration: the global best score and every turtle's personal
best score either stay put or strictly decrease. -/
theorem step_best_mono (f : List ℚ → F64) (s : Optimizer)
    (hg : s.best_score ≠ F64.nan)
    (hp : ∀ t ∈ s.turtles, t.best_score ≠ F64.nan) :
    (F64.le (s.step f).best_score s.best_score = true ∧
      ((s.step f).best_score = s.best_score ∨
        F64.lt (s.step f).best_score s.best_score = true)) ∧
    List.Forall₂ (fun a b => F64.le a b = true ∧ (a = b ∨ F64.lt a b = true))
      ((s.step f).turtles.map (fun t => t.best_score))
      (s.turtles.map (fun t => t.best_score)) := by
  constructor
  · rw [step_best_score]
    rcases evaluateAux_gb_cases f s.best_score s.best_position s.turtles with
      ⟨h1, _⟩ | ⟨h1, _⟩
    · rw [h1]; exact ⟨F64.le_refl hg, Or.inl rfl⟩
    · exact ⟨F64.lt_then_le h1, Or.inr h1⟩
  · rw [step_pbest_list]
    exact forall2_map _ _
      (evaluateAux_pbests f s.best_score s.best_position s.turtles)
      (fun t' t htmem hrel => by
        rcases hrel.1 with ⟨heq, _⟩ | ⟨_, _, hlt⟩
        · rw [heq]; exact ⟨F64.le_refl (hp t htmem), Or.inl rfl⟩
        · exact ⟨F64.lt_then_le hlt, Or.inr hlt⟩)

/-- Claim C3: across successive iterations of the loop, the global best score is
non-increasing and each agent's personal best score is non-increasing; both
change only by being overwritten with a strictly smaller score. -/
theorem claim_C3_best_scores_monotone (f : List ℚ → F64) (s : Optimizer)
    (hg : s.best_score ≠ F64.nan)
    (hp : ∀ t ∈ s.turtles, t.best_score ≠ F64.nan) (n : ℕ) :
    (F64.le (Optimizer.stepN f (n + 1) s).best_score
        (Optimizer.stepN f n s).best_score = true ∧
      ((Optimizer.stepN f (n + 1) s).best_score =
          (Optimizer.stepN f n s).best_score ∨
        F64.lt (Optimizer.stepN f (n + 1) s).best_score
          (Optimizer.stepN f n s).best_score = true)) ∧
    List.Forall₂ (fun a b => F64.le a b = true ∧ (a = b ∨ F64.lt a b = true))
      ((Optimizer.stepN f (n + 1) s).turtles.map (fun t => t.best_score))
      ((Optimizer.stepN f n s).turtles.map (fun t => t.best_score)) := by
  obtain ⟨hg2, hp2⟩ := stepN_nonNan f n s hg hp
  rw [stepN_succ]
  exact step_best_mono f (Optimizer.stepN f n s) hg2 hp2

theorem claim_C3_witness :
    (F64.le (Optimizer.stepN (fun _ => F64.val 0) 1 wState).best_score
        (Optimizer.stepN (fun _ => F64.val 0) 0 wState).best_score = true ∧
      ((Optimizer.stepN (fun _ => F64.val 0) 1 wState).best_score =
          (Optimizer.stepN (fun _ => F64.val 0) 0 wState).best_score ∨
        F64.lt (Optimizer.stepN (fun _ => F64.val 0) 1 wState).best_score
          (Optimizer.stepN (fun _ => F64.val 0) 0 wState).best_score =
            true)) ∧
    List.Forall₂ (fun a b => F64.le a b = true ∧ (a = b ∨ F64.lt a b = true))
      ((Optimizer.stepN (fun _ => F64.val 0) 1 wState).turtles.map
        (fun t => t.best_score))
      ((Optimizer.stepN (fun _ => F64.val 0) 0 wState).turtles.map
        (fun t => t.best_score)) :=
  claim_C3_best_scores_monotone (fun _ => F64.val 0) wState
    (by simp [wState])
    (by intro t ht; simp [wState] at ht; subst ht; simp) 0

/-! ### C9: the nested global-best check is equivalent to an unconditional one -/

/-- When the running global best is at most every remaining personal best,
the nested evaluate loop and the unconditional variant agree exactly. -/
theorem evaluateAux_eq_U (f : List ℚ → F64) (gb : F64) (gp : List ℚ)
    (ts : List Turtle) (h : ∀ t ∈ ts, F64.le gb t.best_score = true) :
    evaluateAux f gb gp ts = evaluateAuxU f gb gp ts := by
  induction ts generalizing gb gp with
  | nil => rfl
  | cons t ts ih =>
    rw [evaluateAux_cons, evaluateAuxU_cons]
    by_cases h1 : F64.lt (f t.position) t.best_score = true
    · rw [if_pos h1]
      have hupd : updT f t =
          { t with best_score := f t.position, best_position := t.position } := by
        unfold updT
        rw [if_pos h1]
      by_cases h2 : F64.lt (f t.position) gb = true
      · rw [if_pos h2, if_pos h2, hupd,
          ih (f t.position) t.position (fun t2 ht2 =>
            F64.lt_then_le
              (F64.lt_le_trans h2 (h t2 (List.mem_cons_of_mem _ ht2))))]
      · rw [if_neg h2, if_neg h2, hupd,
          ih gb gp (fun t2 ht2 => h t2 (List.mem_cons_of_mem _ ht2))]
    · have h2 : ¬F64.lt (f t.position) gb = true := by
        intro h2
        exact h1 (F64.lt_le_trans h2 (h t (List.mem_cons_self _ _)))
      have hupd : updT f t = t := by
        unfold updT
        rw [if_neg h1]
      rw [if_neg h1, if_neg h2, hupd,
        ih gb gp (fun t2 ht2 => h t2 (List.mem_cons_of_mem _ ht2))]

/-- Claim C9: from any state where the global best score is at most every agent's
personal best score (as in every reachable state of a run), the implemented
evaluate phase and the variant that compares every score to the global best
unconditionally produce identical optimizer and agent states. -/
theorem claim_C9_evaluate_refinement (f : List ℚ → F64) (s : Optimizer)
    (h : ∀ t ∈ s.turtles, F64.le s.best_score t.best_score = true) :
    s.evaluate f = s.evaluateU f := by
  unfold Optimizer.evaluate Optimizer.evaluateU
  rw [evaluateAux_eq_U f s.best_score s.best_position s.turtles h]

theorem claim_C9_witness :
    wState.evaluate (fun _ => F64.val 0) =
      wState.evaluateU (fun _ => F64.val 0) :=
  claim_C9_evaluate_refinement (fun _ => F64.val 0) wState
    (by intro t ht; simp [wState] at ht; subst ht; rfl)

/-! ### C10: the strict comparisons of the evaluate phase reject NaN scores -/

/-- One loop iteration preserves: every best score is non-`NaN`, and is
either still `INFINITY` or a value the objective function returned. -/
theorem step_score_inv (f : List ℚ → F64) (s : Optimizer)
    (hg : s.best_score ≠ F64.nan ∧
      (s.best_score = F64.posInf ∨ ∃ p, s.best_score = f p))
    (hp : ∀ t ∈ s.turtles, t.best_score ≠ F64.nan ∧
      (t.best_score = F64.posInf ∨ ∃ p, t.best_score = f p)) :
    ((s.step f).best_score ≠ F64.nan ∧
      ((s.step f).best_score = F64.posInf ∨
        ∃ p, (s.step f).best_score = f p)) ∧
    ∀ t ∈ (s.step f).turtles, t.best_score ≠ F64.nan ∧
      (t.best_score = F64.posInf ∨ ∃ p, t.best_score = f p) := by
  constructor
  · rw [step_best_score]
    rcases evaluateAux_gb_cases f s.best_score s.best_position s.turtles with
      ⟨h1, _⟩ | ⟨h1, t2, _, h4, _⟩
    · rw [h1]; exact hg
    · exact ⟨F64.lt_neq_nan_left h1, Or.inr ⟨t2.position, h4⟩⟩
  · intro t ht
    have hmem : t.best_score ∈ (s.step f).turtles.map (fun t => t.best_score) :=
      List.mem_map_of_mem _ ht
    rw [step_pbest_list] at hmem
    obtain ⟨t2, ht2, hbs⟩ := List.mem_map.mp hmem
    obtain ⟨t3, ht3, hrel⟩ :=
      forall2_mem_left (evaluateAux_pbests f s.best_score s.best_position
        s.turtles) t2 ht2
    rw [← hbs]
    rcases hrel.1 with ⟨heq, _⟩ | ⟨heq, _, hlt⟩
    · rw [heq]; exact hp t3 ht3
    · rw [heq] at hlt ⊢
      exact ⟨F64.lt_neq_nan_left hlt, Or.inr ⟨t3.position, rfl⟩⟩

/-- Claim C10: in any run started from `Optimizer::new`, neither the global best
score nor any agent's personal best score ever becomes `NaN` — the strict
`<` comparisons of the evaluate phase reject `NaN` scores — so each stays
`INFINITY` or a non-`NaN` value returned by the objective function. -/
theorem claim_C10_no_nan_scores (f : List ℚ → F64) (b : CubicBoundary)
    (goal : F64) (draws : List (List ℚ)) (n : ℕ) :
    ((Optimizer.stepN f n (Optimizer.new b goal draws)).best_score ≠
        F64.nan ∧
      ((Optimizer.stepN f n (Optimizer.new b goal draws)).best_score =
          F64.posInf ∨
        ∃ p, (Optimizer.stepN f n (Optimizer.new b goal draws)).best_score =
          f p)) ∧
    ∀ t ∈ (Optimizer.stepN f n (Optimizer.new b goal draws)).turtles,
      t.best_score ≠ F64.nan ∧
      (t.best_score = F64.posInf ∨ ∃ p, t.best_score = f p) := by
  have hmain : ∀ (m : ℕ) (s : Optimizer),
      (s.best_score ≠ F64.nan ∧
        (s.best_score = F64.posInf ∨ ∃ p, s.best_score = f p)) →
      (∀ t ∈ s.turtles, t.best_score ≠ F64.nan ∧
        (t.best_score = F64.posInf ∨ ∃ p, t.best_score = f p)) →
      ((Optimizer.stepN f m s).best_score ≠ F64.nan ∧
        ((Optimizer.stepN f m s).best_score = F64.posInf ∨
          ∃ p, (Optimizer.stepN f m s).best_score = f p)) ∧
      ∀ t ∈ (Optimizer.stepN f m s).turtles, t.best_score ≠ F64.nan ∧
        (t.best_score = F64.posInf ∨ ∃ p, t.best_score = f p) := by
    intro m
    induction m with
    | zero => exact fun s hg hp => ⟨hg, hp⟩
    | succ m ih =>
      intro s hg hp
      obtain ⟨hg2, hp2⟩ := step_score_inv f s hg hp
      exact ih (s.step f) hg2 hp2
  apply hmain n (Optimizer.new b goal draws)
  · exact ⟨by simp [Optimizer.new], Or.inl rfl⟩
  · intro t ht
    simp only [Optimizer.new, List.mem_map] at ht
    obtain ⟨d, _, rfl⟩ := ht
    exact ⟨by simp [Turtle.new], Or.inl rfl⟩

/-! ### C6: the global best is the minimum of the personal bests -/

theorem F64.lt_posInf_left (b : F64) : F64.lt F64.posInf b = false := by
  cases b <;> rfl

theorem sMin_posInf (b : F64) : sMin F64.posInf b = b := by
  unfold sMin
  rw [F64.lt_posInf_left]
  rfl

theorem minScores_cons (t : Turtle) (ts : List Turtle) :
    minScores (t :: ts) = sMin t.best_score (minScores ts) := rfl

theorem minScores_neq_nan (ts : List Turtle) : minScores ts ≠ F64.nan := by
  induction ts with
  | nil => simp [minScores]
  | cons t ts ih =>
    rw [minScores_cons]
    exact sMin_neq_nan ih

theorem minScores_le (ts : List Turtle)
    (h : ∀ t ∈ ts, t.best_score ≠ F64.nan) :
    ∀ t ∈ ts, F64.le (minScores ts) t.best_score = true := by
  induction ts with
  | nil => simp
  | cons t ts ih =>
    intro t2 ht2
    rw [minScores_cons]
    rcases List.mem_cons.mp ht2 with rfl | ht3
    · exact sMin_le_left (h t2 (List.mem_cons_self _ _)) (minScores_neq_nan ts)
    · exact F64.le_trans (sMin_le_right (minScores_neq_nan ts))
        (ih (fun a ha => h a (List.mem_cons_of_mem _ ha)) t2 ht3)

theorem updT_best (f : List ℚ → F64) (t : Turtle) :
    (updT f t).best_score = sMin (f t.position) t.best_score := by
  unfold updT sMin
  split_ifs <;> rfl

theorem evaluateAuxU_fst (f : List ℚ → F64) (gb : F64) (gp : List ℚ)
    (ts : List Turtle) : (evaluateAuxU f gb gp ts).1 = ts.map (updT f) := by
  induction ts generalizing gb gp with
  | nil => rfl
  | cons t ts ih =>
    rw [evaluateAuxU_cons]
    split_ifs <;> simp [ih]

theorem evaluateAuxU_gb (f : List ℚ → F64) (gb : F64) (gp : List ℚ)
    (ts : List Turtle) :
    (evaluateAuxU f gb gp ts).2.1 =
      List.foldl (fun g t => sMin (f t.position) g) gb ts := by
  induction ts generalizing gb gp with
  | nil => rfl
  | cons t ts ih =>
    rw [evaluateAuxU_cons]
    split_ifs with h
    · simp only [List.foldl_cons]
      rw [show sMin (f t.position) gb = f t.position from by
        unfold sMin; rw [if_pos h]]
      exact ih (f t.position) t.position
    · simp only [List.foldl_cons]
      rw [show sMin (f t.position) gb = gb from by
        unfold sMin; rw [if_neg h]]
      exact ih gb gp

theorem foldl_sMin_pull (f : List ℚ → F64) (ts : List Turtle) (a g : F64) :
    List.foldl (fun g t => sMin (f t.position) g) (sMin a g) ts =
      sMin a (List.foldl (fun g t => sMin (f t.position) g) g ts) := by
  induction ts generalizing g with
  | nil => rfl
  | cons t ts ih =>
    simp only [List.foldl_cons]
    rw [sMin_left_comm (f t.position) a g]
    exact ih (sMin (f t.position) g)

theorem foldl_minScores (f : List ℚ → F64) (ts : List Turtle)
    (h : ∀ t ∈ ts, t.best_score ≠ F64.nan) :
    List.foldl (fun g t => sMin (f t.position) g) (minScores ts) ts =
      minScores (ts.map (updT f)) := by
  induction ts with
  | nil => rfl
  | cons t ts ih =>
    simp only [List.foldl_cons, List.map_cons, minScores_cons, updT_best]
    rw [sMin_assoc (h t (List.mem_cons_self _ _)),
      foldl_sMin_pull f ts (sMin (f t.position) t.best_score) (minScores ts),
      ih (fun a ha => h a (List.mem_cons_of_mem _ ha))]

/-- One evaluate phase preserves the invariant that the global best score is
the minimum of the personal best scores (no `NaN` among them). -/
theorem evaluate_min_inv (f : List ℚ → F64) (s : Optimizer)
    (hinv : s.best_score = minScores s.turtles)
    (hp : ∀ t ∈ s.turtles, t.best_score ≠ F64.nan) :
    (s.evaluate f).best_score = minScores (s.evaluate f).turtles ∧
    ∀ t ∈ (s.evaluate f).turtles, t.best_score ≠ F64.nan := by
  have hle : ∀ t ∈ s.turtles, F64.le s.best_score t.best_score = true := by
    rw [hinv]
    exact minScores_le s.turtles hp
  have heq : s.evaluate f = s.evaluateU f := by
    unfold Optimizer.evaluate Optimizer.evaluateU
    rw [evaluateAux_eq_U f s.best_score s.best_position s.turtles hle]
  rw [heq]
  have hts : (s.evaluateU f).turtles = s.turtles.map (updT f) := by
    unfold Optimizer.evaluateU
    exact evaluateAuxU_fst f s.best_score s.best_position s.turtles
  constructor
  · have hbs : (s.evaluateU f).best_score =
        List.foldl (fun g t => sMin (f t.position) g) s.best_score
          s.turtles := by
      unfold Optimizer.evaluateU
      exact evaluateAuxU_gb f s.best_score s.best_position s.turtles
    rw [hbs, hts, hinv, foldl_minScores f s.turtles hp]
  · intro t ht
    rw [hts] at ht
    obtain ⟨t0, ht0, rfl⟩ := List.mem_map.mp ht
    rw [updT_best]
    exact sMin_neq_nan (hp t0 ht0)

theorem minScores_map (g : Turtle → Turtle)
    (hg : ∀ t, (g t).best_score = t.best_score) (ts : List Turtle) :
    minScores (ts.map g) = minScores ts := by
  induction ts with
  | nil => rfl
  | cons t ts ih =>
    simp only [List.map_cons, minScores_cons, hg, ih]

/-- One full loop iteration preserves the minimum invariant. -/
theorem step_min_inv (f : List ℚ → F64) (s : Optimizer)
    (hinv : s.best_score = minScores s.turtles)
    (hp : ∀ t ∈ s.turtles, t.best_score ≠ F64.nan) :
    (s.step f).best_score = minScores (s.step f).turtles ∧
    ∀ t ∈ (s.step f).turtles, t.best_score ≠ F64.nan := by
  obtain ⟨h1, h2⟩ := evaluate_min_inv f s hinv hp
  have hts : (s.step f).turtles =
      ((s.evaluate f).turtles.map
        (Turtle.updateVelocity (s.evaluate f).best_position)).map
        (Turtle.updatePosition s.boundaries) := rfl
  constructor
  · have hbs : (s.step f).best_score = (s.evaluate f).best_score := rfl
    rw [hbs, hts,
      minScores_map (Turtle.updatePosition s.boundaries) (fun t => rfl),
      minScores_map (Turtle.updateVelocity (s.evaluate f).best_position)
        (fun t => rfl)]
    exact h1
  · intro t ht
    rw [hts] at ht
    obtain ⟨t1, ht1, rfl⟩ := List.mem_map.mp ht
    obtain ⟨t0, ht0, rfl⟩ := List.mem_map.mp ht1
    exact h2 t0 ht0

theorem minScores_new (b : CubicBoundary) (draws : List (List ℚ)) :
    minScores (draws.map (Turtle.new b)) = F64.posInf := by
  induction draws with
  | nil => rfl
  | cons d draws ih =>
    simp only [List.map_cons, minScores_cons]
    rw [show (Turtle.new b d).best_score = F64.posInf from rfl, sMin_posInf, ih]

/-- Claim C6: in any run started from `Optimizer::new`, the global best score
always equals the minimum of the agents' personal best scores (both start at
positive infinity); and whenever the evaluate loop changes the global best
pair, the stored global best position is a copy of the updating agent's
position (and the stored score that agent's objective value). -/
theorem claim_C6_global_best_invariant (f : List ℚ → F64) (b : CubicBoundary)
    (goal : F64) (draws : List (List ℚ)) (n : ℕ) :
    (Optimizer.stepN f n (Optimizer.new b goal draws)).best_score =
      minScores (Optimizer.stepN f n (Optimizer.new b goal draws)).turtles ∧
    (∀ (gb : F64) (gp : List ℚ) (ts : List Turtle),
      ((evaluateAux f gb gp ts).2.1 = gb ∧
        (evaluateAux f gb gp ts).2.2 = gp) ∨
      ∃ t ∈ ts, (evaluateAux f gb gp ts).2.1 = f t.position ∧
        (evaluateAux f gb gp ts).2.2 = t.position) := by
  constructor
  · have hmain : ∀ (m : ℕ) (s : Optimizer),
        s.best_score = minScores s.turtles →
        (∀ t ∈ s.turtles, t.best_score ≠ F64.nan) →
        (Optimizer.stepN f m s).best_score =
          minScores (Optimizer.stepN f m s).turtles := by
      intro m
      induction m with
      | zero => exact fun s hinv _ => hinv
      | succ m ih =>
        intro s hinv hp
        obtain ⟨hinv2, hp2⟩ := step_min_inv f s hinv hp
        exact ih (s.step f) hinv2 hp2
    apply hmain n (Optimizer.new b goal draws)
    · exact (minScores_new b draws).symm
    · intro t ht
      simp only [Optimizer.new, List.mem_map] at ht
      obtain ⟨d, _, rfl⟩ := ht
      simp [Turtle.new]
  · intro gb gp ts
    rcases evaluateAux_gb_cases f gb gp ts with ⟨h1, h2⟩ | ⟨_, t, ht, h4, h5⟩
    · exact Or.inl ⟨h1, h2⟩
    · exact Or.inr ⟨t, ht, h4, h5⟩

/-! ### C1: the driving loop and its termination condition -/

/-- Counterexample to C1 as stated: from the constructible state
`Optimizer::new(0, CubicBoundary::new(1, 0., 1.), f, f64::NAN)` the loop
guard `best_score > goal` is false at once (every IEEE comparison with `NaN`
is false), so `optimize` returns immediately — yet the returned state does
not satisfy `best_score <= goal`, because that comparison is also false. -/
theorem claim_C1_counterexample :
    Optimizer.optimizeFuel (fun _ => F64.posInf) 3 nanGoalState =
      some nanGoalState ∧
    F64.le nanGoalState.best_score nanGoalState.goal = false :=
  ⟨rfl, rfl⟩

/-- Claim C1 (amended): the loop repeats {evaluate, update velocities, update
positions, increment `iterations`} while `best_score > goal` and returns
exactly when that guard is false; whenever neither the stored best score nor
the goal is `NaN` (the goal being `NaN` is the only way a run from
`Optimizer::new` can violate this), the guard being false is equivalent to
`best_score <= goal`, as the claim states. -/
theorem claim_C1_guard_false_on_return (f : List ℚ → F64) (n : ℕ)
    (s s' : Optimizer) (h : Optimizer.optimizeFuel f n s = some s') :
    F64.gt s'.best_score s'.goal = false ∧
    (s'.best_score ≠ F64.nan → s'.goal ≠ F64.nan →
      F64.le s'.best_score s'.goal = true) ∧
    (F64.gt s.best_score s.goal = true →
      ∀ m, Optimizer.optimizeFuel f (m + 1) s =
        Optimizer.optimizeFuel f m (s.step f)) ∧
    (F64.gt s.best_score s.goal = false →
      Optimizer.optimizeFuel f n s = some s) ∧
    (∀ s0 : Optimizer, (Optimizer.step f s0).iterations =
      s0.iterations + 1) := by
  have hguard : F64.gt s'.best_score s'.goal = false := by
    induction n generalizing s with
    | zero =>
      unfold Optimizer.optimizeFuel at h
      split_ifs at h with hg
      simp only [Option.some.injEq] at h
      subst h
      exact Bool.eq_false_iff.mpr hg
    | succ n ih =>
      unfold Optimizer.optimizeFuel at h
      split_ifs at h with hg
      · exact ih (s.step f) h
      · simp only [Option.some.injEq] at h
        subst h
        exact Bool.eq_false_iff.mpr hg
  refine ⟨hguard, ?_, ?_, ?_, fun s0 => rfl⟩
  · intro hb hgoal
    exact F64.not_lt_then_le hgoal hb hguard
  · intro hg m
    have hunf : Optimizer.optimizeFuel f (m + 1) s =
        if F64.gt s.best_score s.goal = true then
          Optimizer.optimizeFuel f m (s.step f)
        else some s := rfl
    rw [hunf, if_pos hg]
  · intro hg
    cases n with
    | zero =>
      have hunf : Optimizer.optimizeFuel f 0 s =
          if F64.gt s.best_score s.goal = true then none else some s := rfl
      rw [hunf, if_neg (by simp [hg])]
    | succ n =>
      have hunf : Optimizer.optimizeFuel f (n + 1) s =
          if F64.gt s.best_score s.goal = true then
            Optimizer.optimizeFuel f n (s.step f)
          else some s := rfl
      rw [hunf, if_neg (by simp [hg])]

theorem claim_C1_witness :
    F64.gt wDoneState.best_score wDoneState.goal = false ∧
    F64.le wDoneState.best_score wDoneState.goal = true := by
  have h := claim_C1_guard_false_on_return (fun _ => F64.posInf) 0
    wDoneState wDoneState rfl
  exact ⟨h.1, h.2.1 (by simp [wDoneState]) (by simp [wDoneState])⟩

example :
    (Turtle.new (CubicBoundary.new 1 0 1) [1/2]).velocity = [EPSILON] := by
  norm_num [Turtle.new, CubicBoundary.new]
